import Mathlib

/-!
Shallow embedding of `src/static_priority.rs` (crate `rosy233333/scheduler`):
a static-priority scheduler with `N` FIFO ready queues (index 0 = highest
priority) over shared task handles.

Modelling choices:
* A task handle (`Arc<StatPrioTask<T, N>>`) is identified by a `Nat` id;
  `Arc::ptr_eq` becomes equality of ids.  The shared atomic `priority` field
  of every task is a map `prio : Nat → Nat` carried in the scheduler state,
  so that `set_priority` through one handle is visible through all of them.
* `VecDeque` queues become `List Nat` (front = head), the `Vec` of queues a
  `List (List Nat)`; the indexed `for` loops over `0 .. N` become structural
  recursion over that list (whose length is `N` after `init`).
* `usize`/`isize` become `Nat`/`Int`; the Rust cast `N as isize` is the
  two's-complement reinterpretation of a 64-bit unsigned value, modelled
  exactly by `isizeOfNat` (the numerals below are `2 ^ 63` and `2 ^ 64`).
  The constructor assertions `N > 0` and `N <= isize::MAX + 1` appear as
  hypotheses where theorems need them.
* `&mut self` methods pass the state explicitly and return it (paired with
  the result value where the Rust method returns one).
-/

namespace StaticPriority

/-- `StatPrioTask<T, N>`: an opaque payload together with a priority level.
The const parameter `N` only enters through `set_priority`, so it is passed
there rather than stored. -/
structure StatPrioTask (T : Type) where
  inner : T
  priority : Nat
deriving DecidableEq

/-- The Rust cast `n as isize` for `n : usize` on a 64-bit target:
reinterpret the low 64 bits as a signed value.  `9223372036854775808 = 2 ^ 63`
and `18446744073709551616 = 2 ^ 64`. -/
def isizeOfNat (n : Nat) : Int :=
  ((n : Int) + 9223372036854775808) % 18446744073709551616 - 9223372036854775808

/-- `StatPrioTask::new`: the initial priority is the constant `1`.
(The Rust `const fn` also asserts `N > 0` and `N <= isize::MAX + 1`;
those compile-time assertions are preconditions, stated as hypotheses in the
theorems that need them.) -/
def StatPrioTask.new {T : Type} (inner : T) : StatPrioTask T :=
  ⟨inner, 1⟩

/-- `StatPrioTask::set_priority`: stores `prio` iff `prio >= 0 && prio < N as isize`,
returning whether it stored. -/
def StatPrioTask.set_priority {T : Type} (N : Nat) (t : StatPrioTask T) (prio : Int) :
    Bool × StatPrioTask T :=
  if 0 ≤ prio ∧ prio < isizeOfNat N then
    (true, { t with priority := prio.toNat })
  else
    (false, t)

/-- `StatPrioTask::get_priority`. -/
def StatPrioTask.get_priority {T : Type} (t : StatPrioTask T) : Nat :=
  t.priority

/-- `StatPrioScheduler<T, N>`: the `Vec<VecDeque<Arc<…>>>` of ready queues,
plus the priority fields of all task handles (shared through `Arc`, hence a
single map indexed by task id). -/
structure StatPrioScheduler where
  ready_queues : List (List Nat)
  prio : Nat → Nat

/-- Apply `f` to the queue at index `n` (the Rust code only ever indexes in
bounds; out of range this is the identity). -/
def modifyQueue (f : List Nat → List Nat) : Nat → List (List Nat) → List (List Nat)
  | _, [] => []
  | 0, q :: qs => f q :: qs
  | n + 1, q :: qs => q :: modifyQueue f n qs

/-- `StatPrioScheduler::new`: the queue vector starts empty.  The priority
map is the ambient state of all task handles (each fresh Rust task starts at
priority `1`, but the theorems quantify over arbitrary maps). -/
def StatPrioScheduler.new (prio : Nat → Nat) : StatPrioScheduler :=
  ⟨[], prio⟩

/-- `BaseScheduler::init`: push `N` fresh empty queues. -/
def StatPrioScheduler.init (N : Nat) (s : StatPrioScheduler) : StatPrioScheduler :=
  { s with ready_queues := s.ready_queues ++ List.replicate N [] }

/-- `BaseScheduler::put_prev_task`: read the task's current priority and push
the handle to the front (`preempt = true`) or back (`preempt = false`) of
that queue. -/
def StatPrioScheduler.put_prev_task (s : StatPrioScheduler) (prev : Nat) (preempt : Bool) :
    StatPrioScheduler :=
  { s with ready_queues :=
      if preempt then
        modifyQueue (fun q => prev :: q) (s.prio prev) s.ready_queues
      else
        modifyQueue (fun q => q ++ [prev]) (s.prio prev) s.ready_queues }

/-- `BaseScheduler::add_task = put_prev_task(task, false)`. -/
def StatPrioScheduler.add_task (s : StatPrioScheduler) (task : Nat) : StatPrioScheduler :=
  s.put_prev_task task false

/-- Inner loop of `remove_task` on one queue: find the first index whose
element is `ptr_eq` to `task`, remove and return it. -/
def removeFirst (task : Nat) : List Nat → Option Nat × List Nat
  | [] => (none, [])
  | t :: ts =>
    if t = task then (some t, ts)
    else
      let r := removeFirst task ts
      (r.1, t :: r.2)

/-- Outer loop of `remove_task`: scan queues in ascending priority order and
return on the first queue holding an identity match. -/
def removeScan (task : Nat) : List (List Nat) → Option Nat × List (List Nat)
  | [] => (none, [])
  | q :: qs =>
    match removeFirst task q with
    | (some t, q') => (some t, q' :: qs)
    | (none, _) =>
      let r := removeScan task qs
      (r.1, q :: r.2)

/-- `BaseScheduler::remove_task`. -/
def StatPrioScheduler.remove_task (s : StatPrioScheduler) (task : Nat) :
    Option Nat × StatPrioScheduler :=
  let r := removeScan task s.ready_queues
  (r.1, { s with ready_queues := r.2 })

/-- Loop of `pick_next_task`: `pop_front` on each queue in ascending index
order until one yields a task. -/
def pickScan : List (List Nat) → Option Nat × List (List Nat)
  | [] => (none, [])
  | [] :: qs =>
    let r := pickScan qs
    (r.1, [] :: r.2)
  | (t :: ts) :: qs => (some t, ts :: qs)

/-- `BaseScheduler::pick_next_task`. -/
def StatPrioScheduler.pick_next_task (s : StatPrioScheduler) :
    Option Nat × StatPrioScheduler :=
  let r := pickScan s.ready_queues
  (r.1, { s with ready_queues := r.2 })

/-- Loop of `highest_priority`: the first index with a non-empty queue, or
the length of the queue vector (`N` after `init`) if all are empty. -/
def highestScan : List (List Nat) → Nat
  | [] => 0
  | q :: qs => if q.isEmpty then highestScan qs + 1 else 0

/-- `BaseScheduler::highest_priority` (takes `&self`: pure). -/
def StatPrioScheduler.highest_priority (s : StatPrioScheduler) : Nat :=
  highestScan s.ready_queues

/-- `BaseScheduler::task_tick`: returns `self.highest_priority() > current.get_priority()`.
The receiver is `&mut self` in the trait, so the (unchanged) state is
returned alongside the boolean. -/
def StatPrioScheduler.task_tick (s : StatPrioScheduler) (current : Nat) :
    Bool × StatPrioScheduler :=
  (decide (s.highest_priority > s.prio current), s)

/-- `BaseScheduler::set_priority`: delegates to `StatPrioTask::set_priority`
on the shared handle, i.e. updates the priority map at `task` under the same
range check. -/
def StatPrioScheduler.set_priority (N : Nat) (s : StatPrioScheduler) (task : Nat) (p : Int) :
    Bool × StatPrioScheduler :=
  if 0 ≤ p ∧ p < isizeOfNat N then
    (true, { s with prio := fun x => if x = task then p.toNat else s.prio x })
  else
    (false, s)

/-- Repeatedly call `pick_next_task`, collecting the returned tasks, for at
most `fuel` steps (verification helper: "repeated pick_next_task"). -/
def drain : Nat → StatPrioScheduler → List Nat
  | 0, _ => []
  | fuel + 1, s =>
    match s.pick_next_task with
    | (none, _) => []
    | (some t, s') => t :: drain fuel s'

/-- A state reachable by scheduler operations alone (`N = 2`, every task
handle constructed at the default priority `1`): set task 1 to priority 0,
enqueue task 1 (into queue 0), enqueue task 0 (into queue 1), set task 1
back to priority 1, set task 0 to priority 0.  Both tasks stay in the queues
they were inserted into, so queue position and live priority now disagree. -/
def staleSchedState : StatPrioScheduler :=
  (StatPrioScheduler.set_priority 2
    ((StatPrioScheduler.set_priority 2
      (((StatPrioScheduler.set_priority 2
          ((StatPrioScheduler.new fun _ => 1).init 2) 1 0).2.add_task 1).add_task 0)
      1 1).2)
    0 0).2

example : ((StatPrioScheduler.new fun _ => 1).init 3).ready_queues = [[], [], []] := by
  decide

example :
    drain 5 { ready_queues := [[], [7], [4, 5]], prio := fun _ => 1 } = [7, 4, 5] := by
  decide

/-! ## Helper lemmas: `modifyQueue` -/

theorem modifyQueue_length (f : List Nat → List Nat) :
    ∀ (n : Nat) (qs : List (List Nat)), (modifyQueue f n qs).length = qs.length
  | n, [] => by cases n <;> rfl
  | 0, _ :: _ => rfl
  | n + 1, q :: qs => by
    simp [modifyQueue, modifyQueue_length f n qs]

theorem getD_modifyQueue_self (f : List Nat → List Nat) :
    ∀ (n : Nat) (qs : List (List Nat)), n < qs.length →
      (modifyQueue f n qs).getD n [] = f (qs.getD n [])
  | n, [], h => absurd h (by simp)
  | 0, q :: qs, _ => rfl
  | n + 1, q :: qs, h => by
    simpa [modifyQueue] using getD_modifyQueue_self f n qs (by simpa using h)

theorem getD_modifyQueue_ne (f : List Nat → List Nat) :
    ∀ (n j : Nat) (qs : List (List Nat)), j ≠ n →
      (modifyQueue f n qs).getD j [] = qs.getD j []
  | n, j, [], _ => by cases n <;> rfl
  | 0, 0, q :: qs, h => absurd rfl h
  | 0, j + 1, q :: qs, _ => rfl
  | n + 1, 0, q :: qs, _ => rfl
  | n + 1, j + 1, q :: qs, h => by
    simpa [modifyQueue] using getD_modifyQueue_ne f n j qs (by omega)

theorem flatten_modifyQueue_of_all_nil (ts : List Nat) :
    ∀ (p : Nat) (qs : List (List Nat)), p < qs.length → (∀ q ∈ qs, q = []) →
      (modifyQueue (fun q => q ++ ts) p qs).flatten = ts
  | _, [], h, _ => absurd h (by simp)
  | 0, q :: qs, _, hnil => by
    have hq : q = [] := hnil q (by simp)
    have hqs : qs.flatten = [] := by
      simp only [List.flatten_eq_nil_iff]
      intro x hx
      exact hnil x (List.mem_cons_of_mem _ hx)
    simp [modifyQueue, hq, hqs]
  | p + 1, q :: qs, h, hnil => by
    have hq : q = [] := hnil q (by simp)
    have := flatten_modifyQueue_of_all_nil ts p qs (by simpa using h)
      (fun x hx => hnil x (List.mem_cons_of_mem _ hx))
    simp [modifyQueue, hq, this]

/-! ## Helper lemmas: `highestScan` -/

theorem highestScan_le : ∀ qs : List (List Nat), highestScan qs ≤ qs.length
  | [] => le_refl 0
  | q :: qs => by
    by_cases hq : q.isEmpty <;> simp [highestScan, hq, highestScan_le qs]

theorem getD_eq_nil_of_lt_highestScan :
    ∀ (qs : List (List Nat)) (i : Nat), i < highestScan qs → qs.getD i [] = []
  | [], i, h => by simp [highestScan] at h
  | q :: qs, i, h => by
    by_cases hq : q.isEmpty
    · match i with
      | 0 => exact List.isEmpty_iff.mp hq
      | i + 1 =>
        have : i < highestScan qs := by simp [highestScan, hq] at h; omega
        simpa using getD_eq_nil_of_lt_highestScan qs i this
    · simp [highestScan, hq] at h

theorem getD_highestScan_ne_nil :
    ∀ qs : List (List Nat), highestScan qs < qs.length →
      qs.getD (highestScan qs) [] ≠ []
  | [], h => by simp [highestScan] at h
  | q :: qs, h => by
    by_cases hq : q.isEmpty
    · have hlt : highestScan qs < qs.length := by
        simp only [highestScan, hq, if_pos, List.length_cons] at h; omega
      simpa [highestScan, hq] using getD_highestScan_ne_nil qs hlt
    · simpa [highestScan, hq] using fun hnil => hq (by simp [hnil])

theorem highestScan_eq_length_iff :
    ∀ qs : List (List Nat), highestScan qs = qs.length ↔ ∀ q ∈ qs, q = []
  | [] => by simp [highestScan]
  | q :: qs => by
    by_cases hq : q.isEmpty
    · simp [highestScan, hq, highestScan_eq_length_iff qs, List.isEmpty_iff.mp hq]
    · have hne : q ≠ [] := fun hnil => hq (by simp [hnil])
      rw [show highestScan (q :: qs) = 0 from by simp [highestScan, hq]]
      simp only [List.length_cons]
      constructor
      · intro h
        exact absurd h (by omega)
      · intro hall
        exact absurd (hall q (by simp)) hne

theorem highestScan_eq_of (p : Nat) :
    ∀ qs : List (List Nat), p < qs.length → (∀ i, i < p → qs.getD i [] = []) →
      qs.getD p [] ≠ [] → highestScan qs = p := by
  intro qs hp hbefore hne
  rcases Nat.lt_trichotomy (highestScan qs) p with h | h | h
  · exact absurd (hbefore _ h)
      (getD_highestScan_ne_nil qs (lt_trans h hp))
  · exact h
  · exact absurd (getD_eq_nil_of_lt_highestScan qs p h) hne

/-! ## Helper lemmas: `pickScan` and `drain` -/

theorem pickScan_none_iff :
    ∀ qs : List (List Nat), (pickScan qs).1 = none ↔ ∀ q ∈ qs, q = []
  | [] => by simp [pickScan]
  | [] :: qs => by simp [pickScan, pickScan_none_iff qs]
  | (t :: ts) :: qs => by simp [pickScan]

theorem pickScan_none_eq :
    ∀ qs : List (List Nat), (pickScan qs).1 = none → (pickScan qs).2 = qs
  | [], _ => rfl
  | [] :: qs, h => by
    simp only [pickScan] at h ⊢
    rw [pickScan_none_eq qs h]
  | (t :: ts) :: qs, h => by simp [pickScan] at h

theorem pickScan_eq_of_getD (t : Nat) (ts : List Nat) :
    ∀ qs : List (List Nat), qs.getD (highestScan qs) [] = t :: ts →
      pickScan qs = (some t, modifyQueue (fun _ => ts) (highestScan qs) qs)
  | [], h => by simp [highestScan] at h
  | [] :: qs, h => by
    have hq : highestScan ([] :: qs) = highestScan qs + 1 := by
      simp [highestScan]
    rw [hq] at h
    simp only [List.getD_cons_succ] at h
    simp [pickScan, hq, modifyQueue, pickScan_eq_of_getD t ts qs h]
  | (u :: us) :: qs, h => by
    have hq : highestScan ((u :: us) :: qs) = 0 := by simp [highestScan]
    rw [hq] at h
    simp only [List.getD_cons_zero] at h
    cases h
    simp [pickScan, hq, modifyQueue]

theorem pickScan_flatten (t : Nat) :
    ∀ (qs qs' : List (List Nat)), pickScan qs = (some t, qs') →
      qs.flatten = t :: qs'.flatten
  | [], qs', h => by simp [pickScan] at h
  | [] :: qs, qs', h => by
    simp only [pickScan] at h
    cases hp : pickScan qs with
    | mk a b =>
      rw [hp] at h
      simp only [Prod.mk.injEq] at h
      obtain ⟨h1, h2⟩ := h
      subst h1
      subst h2
      simpa using pickScan_flatten t qs b hp
  | (u :: us) :: qs, qs', h => by
    simp only [pickScan, Prod.mk.injEq] at h
    obtain ⟨h1, h2⟩ := h
    cases h1
    subst h2
    simp

theorem drain_flatten :
    ∀ (fuel : Nat) (s : StatPrioScheduler),
      s.ready_queues.flatten.length ≤ fuel → drain fuel s = s.ready_queues.flatten
  | 0, s, h => by
    have : s.ready_queues.flatten = [] := List.length_eq_zero.mp (Nat.le_zero.mp h)
    simp [drain, this]
  | fuel + 1, s, h => by
    simp only [drain, StatPrioScheduler.pick_next_task]
    cases hfull : pickScan s.ready_queues with
    | mk a b =>
      cases a with
      | none =>
        have hall := (pickScan_none_iff s.ready_queues).mp (by rw [hfull])
        have hnil : s.ready_queues.flatten = [] := by
          simp only [List.flatten_eq_nil_iff]; exact hall
        simp [hnil]
      | some t =>
        have hflat := pickScan_flatten t s.ready_queues b hfull
        have hlen : b.flatten.length ≤ fuel := by
          have := congrArg List.length hflat
          simp only [List.length_cons] at this
          omega
        have ih := drain_flatten fuel { s with ready_queues := b } hlen
        simp only at ih
        simp [hflat, ih]

/-! ## Helper lemmas: `removeFirst` and `removeScan` -/

theorem removeFirst_not_mem (task : Nat) :
    ∀ q : List Nat, task ∉ q → removeFirst task q = (none, q)
  | [], _ => rfl
  | t :: ts, h => by
    have ht : ¬ t = task := fun he => h (by simp [he])
    have hts : task ∉ ts := fun hm => h (List.mem_cons_of_mem _ hm)
    simp [removeFirst, ht, removeFirst_not_mem task ts hts]

theorem removeFirst_mem (task : Nat) :
    ∀ q : List Nat, task ∈ q → removeFirst task q = (some task, q.erase task)
  | [], h => absurd h (by simp)
  | t :: ts, h => by
    by_cases ht : t = task
    · subst ht
      simp [removeFirst, List.erase_cons_head]
    · have hts : task ∈ ts := by
        cases List.mem_cons.mp h with
        | inl he => exact absurd he.symm ht
        | inr hm => exact hm
      have hbeq : (t == task) = false := by simpa using ht
      simp [removeFirst, ht, removeFirst_mem task ts hts, List.erase_cons, hbeq]

theorem removeFirst_none_iff (task : Nat) :
    ∀ q : List Nat, (removeFirst task q).1 = none ↔ task ∉ q := by
  intro q
  constructor
  · intro h hm
    rw [removeFirst_mem task q hm] at h
    simp at h
  · intro hm
    rw [removeFirst_not_mem task q hm]

theorem removeScan_not_mem (task : Nat) :
    ∀ qs : List (List Nat), (∀ q ∈ qs, task ∉ q) → removeScan task qs = (none, qs)
  | [], _ => rfl
  | q :: qs, h => by
    have hq : task ∉ q := h q (by simp)
    have hqs : ∀ x ∈ qs, task ∉ x := fun x hx => h x (List.mem_cons_of_mem _ hx)
    simp [removeScan, removeFirst_not_mem task q hq, removeScan_not_mem task qs hqs]

theorem removeScan_mem (task : Nat) :
    ∀ (qs : List (List Nat)) (p : Nat), task ∈ qs.getD p [] →
      (∀ i, i < p → task ∉ qs.getD i []) →
      removeScan task qs = (some task, modifyQueue (fun q => q.erase task) p qs)
  | [], p, hmem, _ => by
    simp only [List.getD_eq_getElem?_getD] at hmem
    simp at hmem
  | q :: qs, 0, hmem, _ => by
    simp only [List.getD_cons_zero] at hmem
    simp [removeScan, removeFirst_mem task q hmem, modifyQueue]
  | q :: qs, p + 1, hmem, hbefore => by
    have hq : task ∉ q := by simpa using hbefore 0 (Nat.succ_pos p)
    simp only [List.getD_cons_succ] at hmem
    have ih := removeScan_mem task qs p hmem
      (fun i hi => by simpa using hbefore (i + 1) (by omega))
    simp [removeScan, removeFirst_not_mem task q hq, ih, modifyQueue]

theorem removeScan_none_of (task : Nat) :
    ∀ qs : List (List Nat), (removeScan task qs).1 = none → ∀ q ∈ qs, task ∉ q
  | [], _ => by simp
  | q :: qs, h => by
    cases hr : removeFirst task q with
    | mk a q' =>
      cases a with
      | some t =>
        rw [show removeScan task (q :: qs) = (some t, q' :: qs) from by
          simp [removeScan, hr]] at h
        simp at h
      | none =>
        have hq : task ∉ q := (removeFirst_none_iff task q).mp (by rw [hr])
        have htail : (removeScan task qs).1 = none := by
          rw [show removeScan task (q :: qs)
              = ((removeScan task qs).1, q :: (removeScan task qs).2) from by
            simp [removeScan, hr]] at h
          exact h
        intro x hx
        cases List.mem_cons.mp hx with
        | inl he => exact he ▸ hq
        | inr hm => exact removeScan_none_of task qs htail x hm

theorem removeScan_none_iff (task : Nat) (qs : List (List Nat)) :
    (removeScan task qs).1 = none ↔ ∀ q ∈ qs, task ∉ q := by
  constructor
  · exact removeScan_none_of task qs
  · intro h
    rw [removeScan_not_mem task qs h]

/-! ## Helper lemmas: the `N as isize` cast -/

theorem isizeOfNat_eq_self (n : Nat) (h : n < 9223372036854775808) :
    isizeOfNat n = (n : Int) := by
  unfold isizeOfNat
  omega

theorem toNat_lt_of_lt_isizeOfNat (n : Nat) (p : Int) (h0 : 0 ≤ p)
    (h : p < isizeOfNat n) : p.toNat < n := by
  unfold isizeOfNat at h
  omega

/-! ## Helper lemmas: folding `add_task` -/

theorem modifyQueue_congr (f g : List Nat → List Nat) (hfg : ∀ q, f q = g q) :
    ∀ (p : Nat) (qs : List (List Nat)), modifyQueue f p qs = modifyQueue g p qs
  | p, [] => by cases p <;> rfl
  | 0, q :: qs => by simp [modifyQueue, hfg]
  | p + 1, q :: qs => by simp [modifyQueue, modifyQueue_congr f g hfg p qs]

theorem modifyQueue_id_of (f : List Nat → List Nat) (hf : ∀ q, f q = q) :
    ∀ (p : Nat) (qs : List (List Nat)), modifyQueue f p qs = qs
  | p, [] => by cases p <;> rfl
  | 0, q :: qs => by simp [modifyQueue, hf]
  | p + 1, q :: qs => by simp [modifyQueue, modifyQueue_id_of f hf p qs]

theorem modifyQueue_comp (f g : List Nat → List Nat) :
    ∀ (p : Nat) (qs : List (List Nat)),
      modifyQueue f p (modifyQueue g p qs) = modifyQueue (fun q => f (g q)) p qs
  | p, [] => by cases p <;> rfl
  | 0, q :: qs => rfl
  | p + 1, q :: qs => by simp [modifyQueue, modifyQueue_comp f g p qs]

theorem foldl_add_task (p : Nat) :
    ∀ (ts : List Nat) (s : StatPrioScheduler), (∀ t ∈ ts, s.prio t = p) →
      (List.foldl (fun a t => a.add_task t) s ts).ready_queues
          = modifyQueue (fun q => q ++ ts) p s.ready_queues ∧
        (List.foldl (fun a t => a.add_task t) s ts).prio = s.prio
  | [], s, _ =>
    ⟨(modifyQueue_id_of _ (by simp) p s.ready_queues).symm, rfl⟩
  | t :: ts, s, h => by
    have ht : s.prio t = p := h t (by simp)
    have hs' : (s.add_task t).prio = s.prio := rfl
    have ih := foldl_add_task p ts (s.add_task t)
      (fun x hx => by rw [hs']; exact h x (List.mem_cons_of_mem _ hx))
    simp only [List.foldl_cons] at ih ⊢
    refine ⟨?_, ih.2.trans hs'⟩
    rw [ih.1]
    show modifyQueue (fun q => q ++ ts) p
        (modifyQueue (fun q => q ++ [t]) (s.prio t) s.ready_queues)
      = modifyQueue (fun q => q ++ t :: ts) p s.ready_queues
    rw [ht, modifyQueue_comp]
    exact modifyQueue_congr _ _ (by simp) p s.ready_queues

/-! ## Helper lemma: relative order in the flattened queues -/

theorem getD_mem_of_lt (qs : List (List Nat)) (i : Nat) (h : i < qs.length) :
    qs.getD i [] ∈ qs := by
  rw [List.getD_eq_getElem?_getD, List.getElem?_eq_getElem h, Option.getD_some]
  exact List.getElem_mem h

theorem pair_sublist_flatten (a b : Nat) :
    ∀ (qs : List (List Nat)) (pa pb : Nat), pa < pb →
      a ∈ qs.getD pa [] → b ∈ qs.getD pb [] → List.Sublist [a, b] qs.flatten
  | [], pa, pb, _, ha, _ => by
    simp only [List.getD_eq_getElem?_getD] at ha
    simp at ha
  | q :: qs, 0, pb, hab, ha, hb => by
    simp only [List.getD_cons_zero] at ha
    have hpb : b ∈ qs.getD (pb - 1) [] := by
      cases pb with
      | zero => omega
      | succ m => simpa using hb
    have hbf : b ∈ qs.flatten := by
      by_cases hm : pb - 1 < qs.length
      · exact List.mem_flatten.mpr ⟨qs.getD (pb - 1) [], getD_mem_of_lt qs _ hm, hpb⟩
      · rw [List.getD_eq_getElem?_getD, List.getElem?_eq_none (by omega)] at hpb
        simp at hpb
    have h1 : List.Sublist [a] q := List.singleton_sublist.mpr ha
    have h2 : List.Sublist [b] qs.flatten := List.singleton_sublist.mpr hbf
    simpa using List.Sublist.append h1 h2
  | q :: qs, pa + 1, pb, hab, ha, hb => by
    cases pb with
    | zero => omega
    | succ m =>
      simp only [List.getD_cons_succ] at ha hb
      have ih := pair_sublist_flatten a b qs pa m (by omega) ha hb
      have : List.Sublist [a, b] (q ++ qs.flatten) :=
        ih.trans (List.sublist_append_right q qs.flatten)
      simpa using this

/-! ## Claims -/

/-- C9: `highest_priority()` returns the smallest index `p` such that queue `p`
is non-empty, or the sentinel `N` (the number of queues after `init`) when
every queue is empty.  It is a pure query: the embedding gives it type
`StatPrioScheduler → Nat` exactly because the Rust method takes `&self` and
mutates nothing. -/
theorem highest_priority_spec (s : StatPrioScheduler) :
    s.highest_priority ≤ s.ready_queues.length ∧
    (∀ i, i < s.highest_priority → s.ready_queues.getD i [] = []) ∧
    (s.highest_priority < s.ready_queues.length →
      s.ready_queues.getD s.highest_priority [] ≠ []) ∧
    (s.highest_priority = s.ready_queues.length ↔ ∀ q ∈ s.ready_queues, q = []) :=
  ⟨highestScan_le s.ready_queues,
   fun i hi => getD_eq_nil_of_lt_highestScan s.ready_queues i hi,
   getD_highestScan_ne_nil s.ready_queues,
   highestScan_eq_length_iff s.ready_queues⟩

/-- Witness for C9 on the concrete state with queues `[[], [3]]`:
`highest_priority` is `1`, queue `0` (below it) is empty, and the queue at
index `1` is non-empty. -/
theorem highest_priority_spec_witness :
    (⟨[[], [3]], fun _ => 1⟩ : StatPrioScheduler).highest_priority ≤ 2 ∧
    (⟨[[], [3]], fun _ => 1⟩ : StatPrioScheduler).ready_queues.getD 0 [] = [] ∧
    (⟨[[], [3]], fun _ => 1⟩ : StatPrioScheduler).ready_queues.getD
      (⟨[[], [3]], fun _ => 1⟩ : StatPrioScheduler).highest_priority [] ≠ [] := by
  have h := highest_priority_spec ⟨[[], [3]], fun _ => 1⟩
  exact ⟨h.1, h.2.1 0 (by decide), h.2.2.1 (by decide)⟩

/-- C10: `task_tick` only reads the state: it returns the scheduler with the
ready queues (contents and order) and every task's priority field unchanged,
even though the Rust method takes `&mut self`. -/
theorem task_tick_frame (s : StatPrioScheduler) (c : Nat) :
    (s.task_tick c).2.ready_queues = s.ready_queues ∧
      (s.task_tick c).2.prio = s.prio :=
  ⟨rfl, rfl⟩

/-- C1: the claim says `task_tick(current)` is true iff
`highest_priority() < get_priority(current)` and in particular false when all
queues are empty.  The code computes `self_prio > current_prio` — the
comparison is inverted.  On the initialized scheduler with `N = 2`, all
queues empty and `current` at the default priority `1`, `highest_priority()`
is the sentinel `2`, `2 < 1` fails, yet `task_tick` returns `true`. -/
theorem task_tick_empty_returns_true :
    ((((StatPrioScheduler.new fun _ => 1).init 2).task_tick 0).1 = true) ∧
    ((StatPrioScheduler.new fun _ => 1).init 2).highest_priority = 2 ∧
    ((StatPrioScheduler.new fun _ => 1).init 2).prio 0 = 1 ∧
    (∀ q ∈ ((StatPrioScheduler.new fun _ => 1).init 2).ready_queues, q = []) ∧
    ¬ ((StatPrioScheduler.new fun _ => 1).init 2).highest_priority
        < ((StatPrioScheduler.new fun _ => 1).init 2).prio 0 := by
  decide


/-- C2 counterexample: the constructor assertion admits `N = 1`, yet `new`
stores the fixed initial priority `1`, which violates `priority < N` for a
`StatPrioTask<T, 1>` immediately after construction. -/
theorem new_priority_violates_bound_at_one_level :
    (StatPrioTask.new ()).priority = 1 ∧ ¬ (StatPrioTask.new ()).priority < 1 := by
  constructor
  · rfl
  · decide

/-- C2 (amended to `N > 1`, which the initial priority `1` forces): after
construction the priority is the default `1` with `0 ≤ 1 < N`; the task-level
`set_priority` either rejects or stores an in-range value; `get_priority`
reads without mutating; `init`, `add_task`, `put_prev_task`, `remove_task`,
`pick_next_task` and `task_tick` never touch any task's priority field; and
the scheduler-level `set_priority` keeps every priority below `N`. -/
theorem priority_invariant {T : Type} (N : Nat) (hN : 1 < N) (x : T)
    (t : StatPrioTask T) (p : Int) (s : StatPrioScheduler)
    (M u c v : Nat) (b : Bool) (q : Int) :
    ((StatPrioTask.new x).priority = 1 ∧ (StatPrioTask.new x).priority < N) ∧
    (t.priority < N → ((t.set_priority N p).2).priority < N) ∧
    t.get_priority = t.priority ∧
    ((s.init M).prio = s.prio ∧
      (s.add_task u).prio = s.prio ∧
      (s.put_prev_task u b).prio = s.prio ∧
      (s.remove_task u).2.prio = s.prio ∧
      s.pick_next_task.2.prio = s.prio ∧
      (s.task_tick c).2.prio = s.prio) ∧
    ((∀ i, s.prio i < N) →
      ∀ i, (StatPrioScheduler.set_priority N s v q).2.prio i < N) := by
  refine ⟨⟨rfl, hN⟩, ?_, rfl, ⟨rfl, rfl, rfl, rfl, rfl, rfl⟩, ?_⟩
  · intro ht
    unfold StatPrioTask.set_priority
    by_cases hc : 0 ≤ p ∧ p < isizeOfNat N
    · simpa [hc] using toNat_lt_of_lt_isizeOfNat N p hc.1 hc.2
    · simpa [hc] using ht
  · intro hs i
    unfold StatPrioScheduler.set_priority
    by_cases hc : 0 ≤ q ∧ q < isizeOfNat N
    · simp only [hc, if_true, and_self]
      by_cases hi : i = v
      · simpa [hi] using toNat_lt_of_lt_isizeOfNat N q hc.1 hc.2
      · simpa [hi] using hs i
    · simpa [hc] using hs i

/-- Witness for C2 at `N = 2`: the freshly constructed task has priority `1`
and `1 < 2`. -/
theorem priority_invariant_witness :
    (1 : Nat) < 2 ∧ (StatPrioTask.new ()).priority < 2 :=
  ⟨by decide,
   (priority_invariant 2 (by decide) () ⟨(), 0⟩ 0 ⟨[[]], fun _ => 0⟩
      1 0 0 0 false 0).1.2⟩

/-- C3 counterexample: the constructor assertion admits `N = 2^63`, where the
Rust cast `N as isize` wraps to `-2^63`; then `prio >= 0 && prio < N as isize`
is false for every level, so `set_priority` returns `false` for `p = 0` even
though `0 ≤ 0 < N`. -/
theorem set_priority_wraps_at_isize_boundary :
    ((StatPrioTask.new ()).set_priority 9223372036854775808 0).1 = false ∧
    ((StatPrioTask.new ()).set_priority 9223372036854775808 0).2.priority = 1 ∧
    (0 : Int) ≤ 0 ∧ (0 : Int) < (9223372036854775808 : Int) := by
  refine ⟨?_, ?_, by decide, by decide⟩ <;>
    simp [StatPrioTask.set_priority, StatPrioTask.new, isizeOfNat]

/-- C3 (amended to `N < 2^63`, i.e. `N ≤ isize::MAX`, which the wrapping cast
forces; the source assertion also admits `N = 2^63`): `set_priority` fails and
changes nothing when `p < 0` or `p ≥ N`, succeeds and stores exactly `p` when
`0 ≤ p < N`, and in either case touches nothing else — the payload, the other
tasks' priorities and the ready queues are all unchanged.  Both the task-level
method and the scheduler-level delegation are covered. -/
theorem set_priority_spec {T : Type} (N : Nat) (hN : N < 9223372036854775808)
    (t : StatPrioTask T) (p : Int) (s : StatPrioScheduler) (u : Nat) :
    ((p < 0 ∨ (N : Int) ≤ p) → t.set_priority N p = (false, t)) ∧
    (0 ≤ p → p < (N : Int) →
      t.set_priority N p = (true, { inner := t.inner, priority := p.toNat })) ∧
    ((p < 0 ∨ (N : Int) ≤ p) → StatPrioScheduler.set_priority N s u p = (false, s)) ∧
    (0 ≤ p → p < (N : Int) →
      (StatPrioScheduler.set_priority N s u p).1 = true ∧
      (StatPrioScheduler.set_priority N s u p).2.prio u = p.toNat ∧
      (∀ w, w ≠ u → (StatPrioScheduler.set_priority N s u p).2.prio w = s.prio w) ∧
      (StatPrioScheduler.set_priority N s u p).2.ready_queues = s.ready_queues) := by
  have hcast := isizeOfNat_eq_self N hN
  refine ⟨?_, ?_, ?_, ?_⟩
  · intro h
    have hc : ¬ (0 ≤ p ∧ p < isizeOfNat N) := by rw [hcast]; omega
    simp [StatPrioTask.set_priority, hc]
  · intro h0 hlt
    have hc : 0 ≤ p ∧ p < isizeOfNat N := by rw [hcast]; exact ⟨h0, hlt⟩
    simp [StatPrioTask.set_priority, hc]
  · intro h
    have hc : ¬ (0 ≤ p ∧ p < isizeOfNat N) := by rw [hcast]; omega
    simp [StatPrioScheduler.set_priority, hc]
  · intro h0 hlt
    have hc : 0 ≤ p ∧ p < isizeOfNat N := by rw [hcast]; exact ⟨h0, hlt⟩
    refine ⟨?_, ?_, ?_, ?_⟩ <;> simp [StatPrioScheduler.set_priority, hc]
    intro w hw
    simp [hw]

/-- Witness for C3 at `N = 3`: storing level `2` succeeds and rejects are
silent — level `3` fails and leaves the task unchanged. -/
theorem set_priority_spec_witness :
    (StatPrioTask.new ()).set_priority 3 2 = (true, { inner := (), priority := 2 }) ∧
    (StatPrioTask.new ()).set_priority 3 3 = (false, StatPrioTask.new ()) := by
  constructor
  · exact (set_priority_spec 3 (by decide) (StatPrioTask.new ()) 2
      ⟨[], fun _ => 1⟩ 0).2.1 (by decide) (by decide)
  · exact (set_priority_spec 3 (by decide) (StatPrioTask.new ()) 3
      ⟨[], fun _ => 1⟩ 0).1 (Or.inr (by decide))

/-- C4: `remove_task` scans queues in ascending priority order and each queue
front-to-back, comparing by identity of the handle (equality of task ids in
the embedding).  If no queue holds the handle it returns `none` and the whole
state is unchanged.  If `p` is the first queue holding it, the handle is
returned and that queue becomes its `List.erase` — the first occurrence
removed and the relative order of the rest kept — while every other queue and
every priority field stays as it was. -/
theorem remove_task_spec (s : StatPrioScheduler) (task : Nat) :
    ((s.remove_task task).1 = none ↔ ∀ q ∈ s.ready_queues, task ∉ q) ∧
    ((s.remove_task task).1 = none → (s.remove_task task).2 = s) ∧
    (∀ p, task ∈ s.ready_queues.getD p [] →
      (∀ i, i < p → task ∉ s.ready_queues.getD i []) →
      (s.remove_task task).1 = some task ∧
      (s.remove_task task).2.ready_queues
          = modifyQueue (fun q => q.erase task) p s.ready_queues ∧
      (s.remove_task task).2.prio = s.prio) := by
  refine ⟨?_, ?_, ?_⟩
  · simpa [StatPrioScheduler.remove_task] using
      removeScan_none_iff task s.ready_queues
  · intro h
    have hall : ∀ q ∈ s.ready_queues, task ∉ q := by
      simpa [StatPrioScheduler.remove_task] using
        (removeScan_none_iff task s.ready_queues).mp
          (by simpa [StatPrioScheduler.remove_task] using h)
    simp [StatPrioScheduler.remove_task, removeScan_not_mem task s.ready_queues hall]
  · intro p hmem hbefore
    have hr := removeScan_mem task s.ready_queues p hmem hbefore
    refine ⟨?_, ?_, rfl⟩ <;> simp [StatPrioScheduler.remove_task, hr]

/-- Witness for C4 on queues `[[3], [7, 5]]`: removing `5` (present, second
queue, behind `7`) returns it and leaves `[[3], [7]]`; removing the absent
`9` returns `none` and changes nothing. -/
theorem remove_task_spec_witness :
    (StatPrioScheduler.remove_task ⟨[[3], [7, 5]], fun _ => 1⟩ 5).1 = some 5 ∧
    (StatPrioScheduler.remove_task ⟨[[3], [7, 5]], fun _ => 1⟩ 5).2.ready_queues
        = [[3], [7]] ∧
    (StatPrioScheduler.remove_task ⟨[[3], [7, 5]], fun _ => 1⟩ 9).1 = none := by
  have h5 := (remove_task_spec ⟨[[3], [7, 5]], fun _ => 1⟩ 5).2.2 1
    (by decide) (by intro i hi; interval_cases i; decide)
  have h9 := (remove_task_spec ⟨[[3], [7, 5]], fun _ => 1⟩ 9).1
  exact ⟨h5.1, h5.2.1.trans (by decide), h9.mpr (by decide)⟩

/-- C5: `pick_next_task` returns `none` iff every queue is empty (in which
case nothing changes); otherwise it pops and returns the front element of the
first non-empty queue — the one at index `highest_priority()` — and the
resulting state differs only in that queue's tail: all other queues,
including every queue after the first non-empty one, and all priority fields
are untouched. -/
theorem pick_next_task_spec (s : StatPrioScheduler) :
    (s.pick_next_task.1 = none ↔ ∀ q ∈ s.ready_queues, q = []) ∧
    (s.pick_next_task.1 = none → s.pick_next_task.2 = s) ∧
    (∀ t ts, s.ready_queues.getD s.highest_priority [] = t :: ts →
      s.pick_next_task = (some t,
        { s with ready_queues :=
            modifyQueue (fun _ => ts) s.highest_priority s.ready_queues })) := by
  refine ⟨?_, ?_, ?_⟩
  · simpa [StatPrioScheduler.pick_next_task] using pickScan_none_iff s.ready_queues
  · intro h
    have := pickScan_none_eq s.ready_queues
      (by simpa [StatPrioScheduler.pick_next_task] using h)
    simp [StatPrioScheduler.pick_next_task, this]
  · intro t ts hget
    have := pickScan_eq_of_getD t ts s.ready_queues hget
    simp [StatPrioScheduler.pick_next_task, StatPrioScheduler.highest_priority, this]

/-- Witness for C5 on queues `[[], [4, 9], [2]]`: the first non-empty queue
is index `1`; the pick returns `4`, leaves `[[], [9], [2]]`, and on an
all-empty scheduler the pick returns `none`. -/
theorem pick_next_task_spec_witness :
    (StatPrioScheduler.pick_next_task ⟨[[], [4, 9], [2]], fun _ => 1⟩).1 = some 4 ∧
    (StatPrioScheduler.pick_next_task ⟨[[], [4, 9], [2]], fun _ => 1⟩).2.ready_queues
        = [[], [9], [2]] ∧
    (StatPrioScheduler.pick_next_task ⟨[[], []], fun _ => 1⟩).1 = none := by
  have h := (pick_next_task_spec ⟨[[], [4, 9], [2]], fun _ => 1⟩).2.2 4 [9] (by decide)
  have hempty := (pick_next_task_spec ⟨[[], []], fun _ => 1⟩).1
  exact ⟨by rw [h], by rw [h]; decide, hempty.mpr (by decide)⟩

/-- C6: for a task `t` whose current priority `p` is a valid queue index,
`put_prev_task(t, true)` pushes `t` to the front of queue `p` and
`put_prev_task(t, false)` pushes it to the back, behind all tasks already
queued at `p`; every other queue is unchanged, and — the point of the front
push — once the queues above `p` are empty the very next `pick_next_task`
returns `t` before every task that was already waiting at priority `p`. -/
theorem put_prev_task_spec (s : StatPrioScheduler) (t : Nat)
    (h : s.prio t < s.ready_queues.length) :
    ((s.put_prev_task t true).ready_queues.getD (s.prio t) []
        = t :: s.ready_queues.getD (s.prio t) []) ∧
    ((s.put_prev_task t false).ready_queues.getD (s.prio t) []
        = s.ready_queues.getD (s.prio t) [] ++ [t]) ∧
    (∀ b j, j ≠ s.prio t →
      (s.put_prev_task t b).ready_queues.getD j [] = s.ready_queues.getD j []) ∧
    ((∀ i, i < s.prio t → s.ready_queues.getD i [] = []) →
      ((s.put_prev_task t true).pick_next_task).1 = some t) := by
  refine ⟨?_, ?_, ?_, ?_⟩
  · simpa [StatPrioScheduler.put_prev_task] using
      getD_modifyQueue_self (fun q => t :: q) (s.prio t) s.ready_queues h
  · simpa [StatPrioScheduler.put_prev_task] using
      getD_modifyQueue_self (fun q => q ++ [t]) (s.prio t) s.ready_queues h
  · intro b j hj
    cases b <;>
      simpa [StatPrioScheduler.put_prev_task] using
        getD_modifyQueue_ne _ (s.prio t) j s.ready_queues hj
  · intro hempty
    have hq : (s.put_prev_task t true).ready_queues
        = modifyQueue (fun q => t :: q) (s.prio t) s.ready_queues := by
      simp [StatPrioScheduler.put_prev_task]
    set qs' := (s.put_prev_task t true).ready_queues with hqs'
    have hlen : qs'.length = s.ready_queues.length := by
      rw [hq]
      exact modifyQueue_length (fun q => t :: q) (s.prio t) s.ready_queues
    have hfront : qs'.getD (s.prio t) [] = t :: s.ready_queues.getD (s.prio t) [] := by
      rw [hq]
      exact getD_modifyQueue_self (fun q => t :: q) (s.prio t) s.ready_queues h
    have hbelow : ∀ i, i < s.prio t → qs'.getD i [] = [] := by
      intro i hi
      rw [hq, getD_modifyQueue_ne (fun q => t :: q) (s.prio t) i s.ready_queues (by omega)]
      exact hempty i hi
    have hhs : highestScan qs' = s.prio t :=
      highestScan_eq_of (s.prio t) qs' (by omega) hbelow (by rw [hfront]; simp)
    have hpick := pickScan_eq_of_getD t (s.ready_queues.getD (s.prio t) []) qs'
      (by rw [hhs, hfront])
    simp [StatPrioScheduler.pick_next_task, hpick]

/-- Witness for C6 with queues `[[], [5]]` and a task `8` at priority `1`:
the front push yields queue `[8, 5]`, the back push `[5, 8]`, queue `0` is
untouched, and the next pick returns `8` ahead of the waiting `5`. -/
theorem put_prev_task_spec_witness :
    (StatPrioScheduler.put_prev_task ⟨[[], [5]], fun _ => 1⟩ 8 true).ready_queues.getD 1 []
        = [8, 5] ∧
    (StatPrioScheduler.put_prev_task ⟨[[], [5]], fun _ => 1⟩ 8 false).ready_queues.getD 1 []
        = [5, 8] ∧
    (StatPrioScheduler.put_prev_task ⟨[[], [5]], fun _ => 1⟩ 8 true).ready_queues.getD 0 []
        = [] ∧
    ((StatPrioScheduler.put_prev_task ⟨[[], [5]], fun _ => 1⟩ 8 true).pick_next_task).1
        = some 8 := by
  have h := put_prev_task_spec ⟨[[], [5]], fun _ => 1⟩ 8 (by decide)
  refine ⟨h.1.trans (by decide), h.2.1.trans (by decide), ?_, ?_⟩
  · exact (h.2.2.1 true 0 (by decide)).trans (by decide)
  · exact h.2.2.2 (by intro i hi; interval_cases i; decide)

/-- C7: starting from a freshly initialized scheduler, adding any sequence of
tasks that all carry the same valid priority `p` and then picking repeatedly
returns exactly those tasks, in the order they were added (FIFO within a
priority level). -/
theorem add_tasks_fifo (N p : Nat) (pr : Nat → Nat) (ts : List Nat)
    (hp : p < N) (hpr : ∀ t ∈ ts, pr t = p) :
    drain ts.length
        (List.foldl (fun a t => a.add_task t) ((StatPrioScheduler.new pr).init N) ts)
      = ts := by
  have hbase : ((StatPrioScheduler.new pr).init N).ready_queues = List.replicate N [] := by
    simp [StatPrioScheduler.new, StatPrioScheduler.init]
  have hfold := foldl_add_task p ts ((StatPrioScheduler.new pr).init N) hpr
  have hqueues : (List.foldl (fun a t => a.add_task t)
      ((StatPrioScheduler.new pr).init N) ts).ready_queues
      = modifyQueue (fun q => q ++ ts) p (List.replicate N []) := by
    rw [hfold.1, hbase]
  have hflat : (List.foldl (fun a t => a.add_task t)
      ((StatPrioScheduler.new pr).init N) ts).ready_queues.flatten = ts := by
    rw [hqueues]
    exact flatten_modifyQueue_of_all_nil ts p (List.replicate N [])
      (by simpa using hp) (by simp)
  have hdrain := drain_flatten ts.length
    (List.foldl (fun a t => a.add_task t) ((StatPrioScheduler.new pr).init N) ts)
    (by rw [hflat])
  rw [hdrain, hflat]

/-- Witness for C7: on `N = 3` queues, adding `[4, 5, 6]` all at priority `1`
and draining returns `[4, 5, 6]`. -/
theorem add_tasks_fifo_witness :
    drain 3
        (List.foldl (fun a t => a.add_task t)
          ((StatPrioScheduler.new fun _ => 1).init 3) [4, 5, 6])
      = [4, 5, 6] :=
  add_tasks_fifo 3 1 (fun _ => 1) [4, 5, 6] (by decide) (by decide)

/-- C8 counterexample: the live priority field and the queue a task sits in
can disagree, because `set_priority` never relocates an enqueued task (spec
§9).  Build the state by scheduler operations only (`N = 2`, all tasks start
at priority 1): set task 1 to priority 0; add task 1 (into queue 0); add task
0 (into queue 1); set task 1 back to priority 1; set task 0 to priority 0.
Now `get_priority 0 = 0 < 1 = get_priority 1` and both are enqueued, yet
repeated `pick_next_task` returns task 1 *before* task 0 — the claim as
stated is false. -/
theorem stale_priority_inversion :
    (staleSchedState.prio 0 = 0 ∧ staleSchedState.prio 1 = 1) ∧
    0 ∈ staleSchedState.ready_queues.flatten ∧
    1 ∈ staleSchedState.ready_queues.flatten ∧
    drain 2 staleSchedState = [1, 0] := by
  decide

/-- C8 (amended with the consistency hypothesis the counterexample forces:
each of the two tasks still sits in the queue matching its current priority):
if `a` and `b` are enqueued at their current priorities and
`get_priority a < get_priority b`, then repeated `pick_next_task` — drained
long enough to empty the queues — returns `a` before `b`, regardless of the
order they were inserted in. -/
theorem pick_respects_priority (s : StatPrioScheduler) (a b fuel : Nat)
    (ha : a ∈ s.ready_queues.getD (s.prio a) [])
    (hb : b ∈ s.ready_queues.getD (s.prio b) [])
    (hab : s.prio a < s.prio b)
    (hfuel : s.ready_queues.flatten.length ≤ fuel) :
    List.Sublist [a, b] (drain fuel s) := by
  rw [drain_flatten fuel s hfuel]
  exact pair_sublist_flatten a b s.ready_queues (s.prio a) (s.prio b) hab ha hb

/-- Witness for C8 with queues `[[2], [7]]`, task 2 at priority 0 and task 7
at priority 1: the drain returns 2 before 7. -/
theorem pick_respects_priority_witness :
    List.Sublist [2, 7]
      (drain 2 ⟨[[2], [7]], fun t => if t = 2 then 0 else 1⟩) :=
  pick_respects_priority ⟨[[2], [7]], fun t => if t = 2 then 0 else 1⟩ 2 7 2
    (by decide) (by decide) (by decide) (by decide)
